import Mathlib

/-!
Verification of `iot_data_generator.py` (IoT_Data_Generator).

The Python program generates artificial sensor readings, summarizes them,
and exports them to CSV/JSON.  Here the pure core of every routine the
claims mention is embedded shallowly:

* `random.uniform` draws are abstracted as an oracle `ℕ → Draw` of rational
  values; the hypotheses on the oracle record exactly the ranges
  `random.uniform(a, b)` guarantees (`a ≤ N ≤ b` per the Python docs).
* `round(x, 2)` is modelled by `round2` on ℚ.  The proofs rely only on
  monotonicity and on two-decimal values (in particular integers) being
  fixed points, properties shared by the floating-point implementation.
* `datetime` instants are modelled as seconds; `strftime('%Y-%m-%d')` /
  `strftime('%H:%M:%S')` are injective on the instants that occur, so the
  formatted date string is modelled by the day number it denotes and the
  time string by the second-of-day.
-/

namespace IoTData

/-- One bundle of the four `random.uniform` draws made per loop iteration of
`generate_sensor_data_for_user` (lines 72, 75, 79, 82 of the source). -/
structure Draw where
  outside_temp : ℚ
  temp_diff : ℚ
  outside_humidity : ℚ
  humidity_diff : ℚ
deriving DecidableEq

/-- The ranges `random.uniform` guarantees for the four draws:
`uniform(70, 95)`, `uniform(0, 10)`, `uniform(50, 95)`, `uniform(0, 10)`. -/
def DrawInRange (d : Draw) : Prop :=
  70 ≤ d.outside_temp ∧ d.outside_temp ≤ 95 ∧
  0 ≤ d.temp_diff ∧ d.temp_diff ≤ 10 ∧
  50 ≤ d.outside_humidity ∧ d.outside_humidity ≤ 95 ∧
  0 ≤ d.humidity_diff ∧ d.humidity_diff ≤ 10

instance (d : Draw) : Decidable (DrawInRange d) := by
  unfold DrawInRange; infer_instance

/-- Python's `round(x, 2)`: rounding to two decimal places.  (Ties are
rounded up here; the Python float implementation rounds ties to even, but no
claim distinguishes the two: only monotonicity and the fixed points at
integer values are used.) -/
def round2 (x : ℚ) : ℚ := (⌊100 * x + 1 / 2⌋ : ℤ) / 100

/-- One entry of the `sensor_data` list (lines 85–92): the formatted date
and time strings are modelled by day number and second-of-day, and the four
readings carry the two-decimal rounded values. -/
structure SensorRecord where
  date : ℕ
  time : ℕ
  outside_temperature : ℚ
  outside_humidity : ℚ
  room_temperature : ℚ
  room_humidity : ℚ
deriving DecidableEq

/-- Seconds in a day. -/
def daySec : ℕ := 86400

/-- Seconds in the 6-hour step `timedelta(hours=6)`. -/
def stepSec : ℕ := 21600

/-- The dict appended at lines 85–92 for instant `t` (seconds) and draws `d`:
`room_temp = outside_temp - temp_diff`, `room_humidity = outside_humidity -
humidity_diff`, all four readings rounded to two decimals. -/
def mkRecord (t : ℕ) (d : Draw) : SensorRecord where
  date := t / daySec
  time := t % daySec
  outside_temperature := round2 d.outside_temp
  outside_humidity := round2 d.outside_humidity
  room_temperature := round2 (d.outside_temp - d.temp_diff)
  room_humidity := round2 (d.outside_humidity - d.humidity_diff)

/-- The generation loop (lines 67–95): `cur` is the current instant in
seconds, `i` the index into the draw oracle, and the third argument the
number of iterations left; each iteration appends a record and advances the
clock by 6 hours. -/
def genAux (r : ℕ → Draw) : ℕ → ℕ → ℕ → List SensorRecord
  | _, _, 0 => []
  | cur, i, k + 1 => mkRecord cur (r i) :: genAux r (cur + stepSec) (i + 1) k

/-- `IoTDataGenerator.generate_sensor_data_for_user` (lines 61–97):
`start_date` is parsed by `strptime('%Y-%m-%d')` to midnight of day
`startDay`; `range(num_records)` is empty for nonpositive counts, which
`Int.toNat` reproduces. -/
def generate_sensor_data_for_user (startDay : ℕ) (num_records : ℤ)
    (r : ℕ → Draw) : List SensorRecord :=
  genAux r (startDay * daySec) 0 num_records.toNat

/-- Every member of `genAux r cur i k` is `mkRecord` at instant
`cur + j * stepSec` with draw `r (i + j)` for some `j < k`. -/
theorem mem_genAux {r : ℕ → Draw} {cur i k : ℕ} {rec : SensorRecord}
    (h : rec ∈ genAux r cur i k) :
    ∃ j < k, rec = mkRecord (cur + j * stepSec) (r (i + j)) := by
  induction k generalizing cur i with
  | zero => simp [genAux] at h
  | succ k ih =>
    simp only [genAux, List.mem_cons] at h
    rcases h with h | h
    · exact ⟨0, Nat.succ_pos k, by simpa using h⟩
    · obtain ⟨j, hj, hrec⟩ := ih h
      refine ⟨j + 1, Nat.succ_lt_succ hj, ?_⟩
      rw [hrec]
      ring_nf

/-- `round2` is monotone. -/
theorem round2_mono {x y : ℚ} (h : x ≤ y) : round2 x ≤ round2 y := by
  unfold round2
  have : (⌊100 * x + 1 / 2⌋ : ℤ) ≤ ⌊100 * y + 1 / 2⌋ :=
    Int.floor_le_floor (by linarith)
  have h100 : (0 : ℚ) < 100 := by norm_num
  rw [div_le_div_iff_of_pos_right h100]
  exact_mod_cast this

/-- `round2` fixes integers. -/
theorem round2_intCast (n : ℤ) : round2 (n : ℚ) = n := by
  unfold round2
  have h1 : (100 * (n : ℚ) + 1 / 2) = ((100 * n : ℤ) : ℚ) + 1 / 2 := by push_cast; ring
  have h2 : ⌊(1 / 2 : ℚ)⌋ = 0 := by
    rw [Int.floor_eq_zero_iff]
    constructor <;> norm_num
  rw [h1, Int.floor_int_add, h2]
  push_cast
  ring

/-- `round2 x ≤ n` whenever `x ≤ n` for an integer `n`. -/
theorem round2_le_intCast {x : ℚ} {n : ℤ} (h : x ≤ (n : ℚ)) :
    round2 x ≤ (n : ℚ) := by
  have := round2_mono h
  rwa [round2_intCast] at this

/-- `(n : ℚ) ≤ round2 x` whenever `n ≤ x` for an integer `n`. -/
theorem intCast_le_round2 {x : ℚ} {n : ℤ} (h : (n : ℚ) ≤ x) :
    (n : ℚ) ≤ round2 x := by
  have := round2_mono h
  rwa [round2_intCast] at this

/-- A fixed concrete draw used to instantiate the generator theorems. -/
def wDraw : Draw := ⟨80, 5, 60, 5⟩

theorem wDraw_inRange : DrawInRange wDraw := by decide

theorem wDraw_mem :
    mkRecord 0 wDraw ∈ generate_sensor_data_for_user 0 1 (fun _ => wDraw) := by
  simp [generate_sensor_data_for_user, genAux]

/-- C1: for every reading produced by `generate_sensor_data_for_user` (any
start date, any record count, any in-range random draws), the stored
(two-decimal rounded) room temperature is at most the stored outside
temperature, and likewise for humidity: the room value is the outside value
minus a nonnegative offset, and rounding is monotone. -/
theorem C1_room_le_outside (startDay : ℕ) (num_records : ℤ) (r : ℕ → Draw)
    (hr : ∀ i, DrawInRange (r i)) :
    ∀ rec ∈ generate_sensor_data_for_user startDay num_records r,
      rec.room_temperature ≤ rec.outside_temperature ∧
      rec.room_humidity ≤ rec.outside_humidity := by
  intro rec hmem
  obtain ⟨j, _, rfl⟩ := mem_genAux hmem
  obtain ⟨_, _, htd, _, _, _, hhd, _⟩ := hr (0 + j)
  exact ⟨round2_mono (by linarith), round2_mono (by linarith)⟩

theorem C1_room_le_outside_witness :
    (mkRecord 0 wDraw).room_temperature ≤ (mkRecord 0 wDraw).outside_temperature ∧
    (mkRecord 0 wDraw).room_humidity ≤ (mkRecord 0 wDraw).outside_humidity :=
  C1_room_le_outside 0 1 (fun _ => wDraw) (fun _ => wDraw_inRange) _ wDraw_mem

/-- C2: every reading's stored outside temperature lies in `[70, 95]` and
its stored outside humidity lies in `[50, 95]`, also after the two-decimal
rounding, for any start date, record count and in-range draws. -/
theorem C2_outside_ranges (startDay : ℕ) (num_records : ℤ) (r : ℕ → Draw)
    (hr : ∀ i, DrawInRange (r i)) :
    ∀ rec ∈ generate_sensor_data_for_user startDay num_records r,
      70 ≤ rec.outside_temperature ∧ rec.outside_temperature ≤ 95 ∧
      50 ≤ rec.outside_humidity ∧ rec.outside_humidity ≤ 95 := by
  intro rec hmem
  obtain ⟨j, _, rfl⟩ := mem_genAux hmem
  obtain ⟨hot₁, hot₂, _, _, hoh₁, hoh₂, _, _⟩ := hr (0 + j)
  refine ⟨?_, ?_, ?_, ?_⟩
  · exact_mod_cast intCast_le_round2 (n := 70) (by exact_mod_cast hot₁)
  · exact_mod_cast round2_le_intCast (n := 95) (by exact_mod_cast hot₂)
  · exact_mod_cast intCast_le_round2 (n := 50) (by exact_mod_cast hoh₁)
  · exact_mod_cast round2_le_intCast (n := 95) (by exact_mod_cast hoh₂)

theorem C2_outside_ranges_witness :
    70 ≤ (mkRecord 0 wDraw).outside_temperature ∧
    (mkRecord 0 wDraw).outside_temperature ≤ 95 ∧
    50 ≤ (mkRecord 0 wDraw).outside_humidity ∧
    (mkRecord 0 wDraw).outside_humidity ≤ 95 :=
  C2_outside_ranges 0 1 (fun _ => wDraw) (fun _ => wDraw_inRange) _ wDraw_mem

/-- C10: every reading's stored room temperature lies in `[60, 95]` and its
stored room humidity lies in `[40, 95]`: the room value is the outside value
minus an offset in `[0, 10]`, and rounding is monotone with integer fixed
points. -/
theorem C10_room_ranges (startDay : ℕ) (num_records : ℤ) (r : ℕ → Draw)
    (hr : ∀ i, DrawInRange (r i)) :
    ∀ rec ∈ generate_sensor_data_for_user startDay num_records r,
      60 ≤ rec.room_temperature ∧ rec.room_temperature ≤ 95 ∧
      40 ≤ rec.room_humidity ∧ rec.room_humidity ≤ 95 := by
  intro rec hmem
  obtain ⟨j, _, rfl⟩ := mem_genAux hmem
  obtain ⟨hot₁, hot₂, htd₁, htd₂, hoh₁, hoh₂, hhd₁, hhd₂⟩ := hr (0 + j)
  refine ⟨?_, ?_, ?_, ?_⟩
  · exact_mod_cast intCast_le_round2 (n := 60) (by push_cast; linarith)
  · exact_mod_cast round2_le_intCast (n := 95) (by push_cast; linarith)
  · exact_mod_cast intCast_le_round2 (n := 40) (by push_cast; linarith)
  · exact_mod_cast round2_le_intCast (n := 95) (by push_cast; linarith)

theorem C10_room_ranges_witness :
    60 ≤ (mkRecord 0 wDraw).room_temperature ∧
    (mkRecord 0 wDraw).room_temperature ≤ 95 ∧
    40 ≤ (mkRecord 0 wDraw).room_humidity ∧
    (mkRecord 0 wDraw).room_humidity ≤ 95 :=
  C10_room_ranges 0 1 (fun _ => wDraw) (fun _ => wDraw_inRange) _ wDraw_mem

/-- The instant a record was generated at, recovered from its stored date
(day number) and time (second-of-day). -/
def timestampSec (s : SensorRecord) : ℕ := s.date * daySec + s.time

theorem timestampSec_mkRecord (t : ℕ) (d : Draw) :
    timestampSec (mkRecord t d) = t := by
  simp only [timestampSec, mkRecord]
  rw [Nat.mul_comm]
  exact Nat.div_add_mod t daySec

theorem genAux_length (r : ℕ → Draw) :
    ∀ cur i k, (genAux r cur i k).length = k := by
  intro cur i k
  induction k generalizing cur i with
  | zero => rfl
  | succ k ih => simp [genAux, ih]

theorem genAux_get? (r : ℕ → Draw) :
    ∀ cur i k j, j < k →
      (genAux r cur i k).get? j = some (mkRecord (cur + j * stepSec) (r (i + j))) := by
  intro cur i k
  induction k generalizing cur i with
  | zero => intro j hj; omega
  | succ k ih =>
    intro j hj
    match j with
    | 0 => simp [genAux]
    | Nat.succ j =>
      have h1 : cur + stepSec + j * stepSec = cur + (j + 1) * stepSec := by ring
      have h2 : i + 1 + j = i + (j + 1) := by ring
      simpa [genAux, h1, h2] using ih (cur + stepSec) (i + 1) j (by omega)

/-- C3: the generated list has exactly `num_records.toNat` readings; the
`j`-th reading (0-indexed) was generated at the instant
`startDay * 86400 + j * 21600` seconds, i.e. the start date plus `j` times 6
hours; in particular the first reading is at midnight of the configured
start date and successive readings are exactly 6 hours (21600 s) apart. -/
theorem C3_timestamps (startDay : ℕ) (num_records : ℤ) (r : ℕ → Draw) :
    (generate_sensor_data_for_user startDay num_records r).length =
        num_records.toNat ∧
    (∀ j rec,
      (generate_sensor_data_for_user startDay num_records r).get? j = some rec →
      timestampSec rec = startDay * daySec + j * stepSec) ∧
    (∀ rec,
      (generate_sensor_data_for_user startDay num_records r).get? 0 = some rec →
      timestampSec rec = startDay * daySec) ∧
    (∀ j rec rec',
      (generate_sensor_data_for_user startDay num_records r).get? j = some rec →
      (generate_sensor_data_for_user startDay num_records r).get? (j + 1) =
          some rec' →
      timestampSec rec' = timestampSec rec + stepSec) := by
  have hlen := genAux_length r (startDay * daySec) 0 num_records.toNat
  have hget : ∀ j rec,
      (generate_sensor_data_for_user startDay num_records r).get? j = some rec →
      timestampSec rec = startDay * daySec + j * stepSec := by
    intro j rec hj
    have hjlt : j < num_records.toNat := by
      rw [← hlen]
      exact List.get?_eq_some.mp hj |>.1
    rw [generate_sensor_data_for_user,
      genAux_get? r (startDay * daySec) 0 num_records.toNat j hjlt] at hj
    cases hj
    exact timestampSec_mkRecord _ _
  refine ⟨hlen, hget, ?_, ?_⟩
  · intro rec h
    simpa using hget 0 rec h
  · intro j rec rec' h h'
    rw [hget j rec h, hget (j + 1) rec' h']
    ring

theorem C3_timestamps_witness :
    timestampSec (mkRecord 108000 wDraw) = 1 * daySec + 1 * stepSec :=
  (C3_timestamps 1 2 (fun _ => wDraw)).2.1 1 (mkRecord 108000 wDraw)
    (by simp [generate_sensor_data_for_user, genAux, daySec, stepSec])

/-- One bundle of the faker / `random` draws made per iteration of
`generate_user_data` (lines 40–46): name, age, gender and account fields. -/
structure UserProfile where
  firstname : String
  lastname : String
  age : ℕ
  gender : String
  username : String
  address : String
  email : String
deriving DecidableEq

/-- One entry of the `users` list (lines 48–57): the profile fields plus the
`sensor_data` list (initially empty, later populated). -/
structure User where
  firstname : String
  lastname : String
  age : ℕ
  gender : String
  username : String
  address : String
  email : String
  sensor_data : List SensorRecord
deriving DecidableEq

/-- The dict appended at lines 48–57: profile fields with `sensor_data: []`. -/
def profileToUser (p : UserProfile) : User where
  firstname := p.firstname
  lastname := p.lastname
  age := p.age
  gender := p.gender
  username := p.username
  address := p.address
  email := p.email
  sensor_data := []

/-- `IoTDataGenerator.generate_user_data` (lines 36–58): one user per
iteration of `range(num_users)` (empty for nonpositive counts), fields drawn
from the faker oracle. -/
def generate_user_data (num_users : ℤ) (fp : ℕ → UserProfile) : List User :=
  (List.range num_users.toNat).map (fun i => profileToUser (fp i))

/-- A fixed concrete profile used to instantiate the theorems. -/
def wProfile : UserProfile :=
  ⟨"Ada", "Lovelace", 30, "Female", "ada", "1 Example Street", "ada at example"⟩

/-- C7: nonpositive `num_users` yields an empty user list, nonpositive
`num_records` yields an empty reading list, and positive counts yield
exactly `num_users` users (resp. `num_records` readings); both functions are
total, so no error condition arises for positive counts. -/
theorem C7_counts (num_users num_records : ℤ) (fp : ℕ → UserProfile)
    (startDay : ℕ) (r : ℕ → Draw) :
    (num_users ≤ 0 → generate_user_data num_users fp = []) ∧
    (0 < num_users →
      ((generate_user_data num_users fp).length : ℤ) = num_users) ∧
    (num_records ≤ 0 →
      generate_sensor_data_for_user startDay num_records r = []) ∧
    (0 < num_records →
      ((generate_sensor_data_for_user startDay num_records r).length : ℤ) =
        num_records) := by
  refine ⟨?_, ?_, ?_, ?_⟩
  · intro h
    have : num_users.toNat = 0 := Int.toNat_of_nonpos h
    simp [generate_user_data, this]
  · intro h
    have : (generate_user_data num_users fp).length = num_users.toNat := by
      simp [generate_user_data]
    rw [this, Int.toNat_of_nonneg (le_of_lt h)]
  · intro h
    have : num_records.toNat = 0 := Int.toNat_of_nonpos h
    simp [generate_sensor_data_for_user, this, genAux]
  · intro h
    have : (generate_sensor_data_for_user startDay num_records r).length =
        num_records.toNat := genAux_length r _ 0 _
    rw [this, Int.toNat_of_nonneg (le_of_lt h)]

theorem C7_counts_witness :
    generate_user_data (-3) (fun _ => wProfile) = [] ∧
    ((generate_user_data 2 (fun _ => wProfile)).length : ℤ) = 2 ∧
    generate_sensor_data_for_user 0 (-1) (fun _ => wDraw) = [] ∧
    ((generate_sensor_data_for_user 0 3 (fun _ => wDraw)).length : ℤ) = 3 :=
  ⟨(C7_counts (-3) 0 (fun _ => wProfile) 0 (fun _ => wDraw)).1 (by norm_num),
   (C7_counts 2 0 (fun _ => wProfile) 0 (fun _ => wDraw)).2.1 (by norm_num),
   (C7_counts 0 (-1) (fun _ => wProfile) 0 (fun _ => wDraw)).2.2.1 (by norm_num),
   (C7_counts 0 3 (fun _ => wProfile) 0 (fun _ => wDraw)).2.2.2 (by norm_num)⟩

/-- Lines 129–131: the flattening loop `all_sensor_data.extend(user['sensor_data'])`. -/
def all_sensor_data (data : List User) : List SensorRecord :=
  data.flatMap (fun u => u.sensor_data)

/-- Minimum of a column, `df[col].min()` (only used on nonempty columns). -/
def listMin (xs : List ℚ) : ℚ :=
  match xs with
  | [] => 0
  | x :: t => t.foldl min x

/-- Maximum of a column, `df[col].max()` (only used on nonempty columns). -/
def listMax (xs : List ℚ) : ℚ :=
  match xs with
  | [] => 0
  | x :: t => t.foldl max x

/-- `df[col].quantile(p)`: pandas' linear interpolation at rank `p·(n−1)`
over the sorted column. -/
def quantile (xs : List ℚ) (p : ℚ) : ℚ :=
  let s := xs.insertionSort (· ≤ ·)
  let h : ℚ := p * ((xs.length : ℚ) - 1)
  let lo := (⌊h⌋).toNat
  let hi := (⌈h⌉).toNat
  s.getD lo 0 + (h - (⌊h⌋ : ℚ)) * (s.getD hi 0 - s.getD lo 0)

/-- The per-column block printed at lines 144–154: count, mean, standard
deviation, min, the three quartiles and max.  The standard deviation is
carried as the sample variance (`ddof = 1`, matching pandas); its square
root is display-only in the dialog.  For a single reading pandas shows
`NaN`; ℚ has no `NaN`, so `var` is the junk value `0` there — no claim
touches that case, and pandas raises no exception for it either. -/
structure FieldStats where
  count : ℕ
  mean : ℚ
  var : ℚ
  fmin : ℚ
  q25 : ℚ
  median : ℚ
  q75 : ℚ
  fmax : ℚ
deriving DecidableEq

/-- Per-column statistics of a column `xs` (lines 144–154). -/
def fieldStats (xs : List ℚ) : FieldStats where
  count := xs.length
  mean := xs.sum / (xs.length : ℚ)
  var := ((xs.map (fun x => (x - xs.sum / (xs.length : ℚ)) ^ 2)).sum) /
    ((xs.length : ℚ) - 1)
  fmin := listMin xs
  q25 := quantile xs (1 / 4)
  median := quantile xs (1 / 2)
  q75 := quantile xs (3 / 4)
  fmax := listMax xs

/-- The content of the statistics text when data is present: the four
per-column blocks plus the additional block of lines 156–161.  The date
range is `all_sensor_data[0]['date']` to `all_sensor_data[-1]['date']`. -/
structure StatsSummary where
  outside_temperature : FieldStats
  outside_humidity : FieldStats
  room_temperature : FieldStats
  room_humidity : FieldStats
  totalUsers : ℕ
  totalRecords : ℕ
  dateRangeStart : ℕ
  dateRangeEnd : ℕ
deriving DecidableEq

/-- The three possible reports of `StatisticsDialog.generate_statistics`:
the line-123 early return ("No data available. Please generate IoT data
first."), the line-133 early return ("No sensor data available."), or the
full summary. -/
inductive StatsReport where
  | noData : StatsReport
  | noSensorData : StatsReport
  | summary : StatsSummary → StatsReport
deriving DecidableEq

/-- The summary built at lines 138–161 (on nonempty flattened data): the
four per-column blocks, the user and record totals, and the date range
`all_sensor_data[0]['date']` to `all_sensor_data[-1]['date']`. -/
def mkSummary (data : List User) : StatsSummary :=
  let all := all_sensor_data data
  { outside_temperature := fieldStats (all.map (·.outside_temperature))
    outside_humidity := fieldStats (all.map (·.outside_humidity))
    room_temperature := fieldStats (all.map (·.room_temperature))
    room_humidity := fieldStats (all.map (·.room_humidity))
    totalUsers := data.length
    totalRecords := all.length
    dateRangeStart := ((all.map SensorRecord.date).head?).getD 0
    dateRangeEnd := ((all.map SensorRecord.date).getLast?).getD 0 }

/-- `StatisticsDialog.generate_statistics` (lines 118–163).  The two empty
cases return before any per-column statistic (and so before any division)
is attempted. -/
def generate_statistics (data : List User) : StatsReport :=
  if data.isEmpty then .noData
  else if (all_sensor_data data).isEmpty then .noSensorData
  else .summary (mkSummary data)

theorem all_sensor_data_eq_nil {data : List User}
    (h : ∀ u ∈ data, u.sensor_data = []) : all_sensor_data data = [] := by
  induction data with
  | nil => rfl
  | cons u t ih =>
    have hu := h u (List.mem_cons_self u t)
    have ht := ih (fun v hv => h v (List.mem_cons_of_mem u hv))
    simp [all_sensor_data] at ht ⊢
    exact ⟨hu, ht⟩

/-- C4: on an empty user list the summarizer reports the "no data" text; if
every user's reading list is empty it reports the "no sensor data" text —
in both cases returning before any per-column statistic (hence any
division) is computed; on any input with at least one reading it produces
the full summary. -/
theorem C4_empty_reports (data : List User) :
    (generate_statistics [] = .noData) ∧
    (data ≠ [] → (∀ u ∈ data, u.sensor_data = []) →
      generate_statistics data = .noSensorData) ∧
    (data ≠ [] → all_sensor_data data ≠ [] →
      ∃ s, generate_statistics data = .summary s) := by
  refine ⟨rfl, ?_, ?_⟩
  · intro hne hall
    have h := all_sensor_data_eq_nil hall
    rw [generate_statistics]
    simp [hne, h]
  · intro hne hr
    rw [generate_statistics]
    simp only [List.isEmpty_eq_true, hne, if_false, hr]
    exact ⟨_, rfl⟩

/-- A user holding one fixed reading. -/
def wUser : User :=
  { profileToUser wProfile with sensor_data := [mkRecord 0 wDraw] }

theorem C4_empty_reports_witness :
    (generate_statistics [] = .noData) ∧
    (generate_statistics [profileToUser wProfile] = .noSensorData) ∧
    (∃ s, generate_statistics [wUser] = .summary s) :=
  ⟨(C4_empty_reports []).1,
   (C4_empty_reports [profileToUser wProfile]).2.1 (by simp)
     (by intro u hu; simp at hu; rw [hu]; rfl),
   (C4_empty_reports [wUser]).2.2 (by simp)
     (by simp [all_sensor_data, wUser])⟩

theorem headD_mem {l : List ℕ} (h : l ≠ []) : (l.head?).getD 0 ∈ l := by
  cases l with
  | nil => exact absurd rfl h
  | cons x t => exact List.mem_cons_self x t

theorem getLastD_mem {l : List ℕ} (h : l ≠ []) : (l.getLast?).getD 0 ∈ l := by
  rw [List.getLast?_eq_getLast l h]
  exact List.getLast_mem h

theorem sorted_headD_le {l : List ℕ} (hs : List.Sorted (· ≤ ·) l) :
    ∀ d ∈ l, (l.head?).getD 0 ≤ d := by
  cases l with
  | nil => intro d hd; simp at hd
  | cons x t =>
    intro d hd
    rcases List.mem_cons.mp hd with rfl | hd
    · simp
    · simpa using List.rel_of_sorted_cons hs d hd

theorem sorted_le_getLastD {l : List ℕ} (hs : List.Sorted (· ≤ ·) l) :
    ∀ d ∈ l, d ≤ (l.getLast?).getD 0 := by
  induction l with
  | nil => simp
  | cons x t ih =>
    intro d hd
    have hs' := List.sorted_cons.mp hs
    cases t with
    | nil =>
      simp at hd
      subst hd
      simp
    | cons y t' =>
      have hlast : ((y :: t').getLast?).getD 0 ∈ y :: t' :=
        getLastD_mem (by simp)
      have hgl : ((x :: y :: t').getLast?) = ((y :: t').getLast?) :=
        List.getLast?_cons_cons
      rcases List.mem_cons.mp hd with rfl | hd
      · rw [hgl]; exact hs'.1 _ hlast
      · rw [hgl]; exact ih hs'.2 d hd

theorem some_headD {l : List ℕ} (h : l ≠ []) :
    some ((l.head?).getD 0) = l.head? := by
  cases l with
  | nil => exact absurd rfl h
  | cons x t => rfl

theorem some_getLastD {l : List ℕ} (h : l ≠ []) :
    some ((l.getLast?).getD 0) = l.getLast? := by
  rw [List.getLast?_eq_getLast l h]
  rfl

theorem dates_flat_cons (u : User) (us : List User) :
    (all_sensor_data (u :: us)).map SensorRecord.date =
      u.sensor_data.map SensorRecord.date ++
        (all_sensor_data us).map SensorRecord.date := by
  simp [all_sensor_data]

theorem common_ds_ne_nil {data : List User} {ds : List ℕ}
    (hne : all_sensor_data data ≠ [])
    (hcommon : ∀ u ∈ data, u.sensor_data.map SensorRecord.date = ds) :
    ds ≠ [] := by
  intro hds
  apply hne
  apply all_sensor_data_eq_nil
  intro u hu
  have h := hcommon u hu
  rw [hds] at h
  simpa using h

theorem mem_common_ds {data : List User} {ds : List ℕ}
    (hcommon : ∀ u ∈ data, u.sensor_data.map SensorRecord.date = ds) :
    ∀ d ∈ (all_sensor_data data).map SensorRecord.date, d ∈ ds := by
  induction data with
  | nil => intro d hd; simp [all_sensor_data] at hd
  | cons u us ih =>
    intro d hd
    rw [dates_flat_cons] at hd
    rcases List.mem_append.mp hd with h | h
    · rw [hcommon u (List.mem_cons_self u us)] at h
      exact h
    · exact ih (fun v hv => hcommon v (List.mem_cons_of_mem u hv)) d h

theorem head_common_ds {data : List User} {ds : List ℕ}
    (hne : all_sensor_data data ≠ [])
    (hcommon : ∀ u ∈ data, u.sensor_data.map SensorRecord.date = ds) :
    ((all_sensor_data data).map SensorRecord.date).head? = ds.head? := by
  cases data with
  | nil => simp [all_sensor_data] at hne
  | cons u us =>
    have hds : ds ≠ [] := common_ds_ne_nil hne hcommon
    rw [dates_flat_cons, hcommon u (List.mem_cons_self u us),
      List.head?_append_of_ne_nil _ hds]

theorem getLast_common_ds {ds : List ℕ} :
    ∀ data : List User, all_sensor_data data ≠ [] →
      (∀ u ∈ data, u.sensor_data.map SensorRecord.date = ds) →
      ((all_sensor_data data).map SensorRecord.date).getLast? = ds.getLast? := by
  intro data
  induction data with
  | nil => intro hne _; simp [all_sensor_data] at hne
  | cons u us ih =>
    intro hne hcommon
    have hds : ds ≠ [] := common_ds_ne_nil hne hcommon
    have hcommon' : ∀ v ∈ us, v.sensor_data.map SensorRecord.date = ds :=
      fun v hv => hcommon v (List.mem_cons_of_mem u hv)
    cases us with
    | nil =>
      rw [dates_flat_cons, hcommon u (List.mem_cons_self u [])]
      simp [all_sensor_data]
    | cons v vs =>
      have hvne : v.sensor_data ≠ [] := by
        intro h0
        have hv := hcommon' v (List.mem_cons_self v vs)
        rw [h0] at hv
        exact hds (by simpa using hv.symm)
      have hne' : all_sensor_data (v :: vs) ≠ [] := by
        intro h0
        apply hvne
        have h1 : v.sensor_data = [] ∧ ∀ x ∈ vs, x.sensor_data = [] := by
          simpa [all_sensor_data] using h0
        exact h1.1
      have hmus : (all_sensor_data (v :: vs)).map SensorRecord.date ≠ [] := by
        simpa using hne'
      rw [dates_flat_cons, List.getLast?_append_of_ne_nil _ hmus,
        ih hne' hcommon']

theorem date_mkRecord (t : ℕ) (d : Draw) :
    (mkRecord t d).date = t / daySec := rfl

/-- The date sequence of a generated reading list does not depend on the
random draws: `strftime('%Y-%m-%d')` of the stepping clock ignores them. -/
theorem genAux_dates_indep (r r' : ℕ → Draw) :
    ∀ cur i i' k,
      (genAux r cur i k).map SensorRecord.date =
        (genAux r' cur i' k).map SensorRecord.date := by
  intro cur i i' k
  induction k generalizing cur i i' with
  | zero => rfl
  | succ k ih =>
    simp only [genAux, List.map_cons, date_mkRecord]
    rw [ih]

theorem le_date_of_mem_genAux {r : ℕ → Draw} {cur i k : ℕ} {d : ℕ}
    (hd : d ∈ (genAux r cur i k).map SensorRecord.date) :
    cur / daySec ≤ d := by
  rcases List.mem_map.mp hd with ⟨rec, hrec, rfl⟩
  obtain ⟨j, _, rfl⟩ := mem_genAux hrec
  rw [date_mkRecord]
  exact Nat.div_le_div_right (Nat.le_add_right cur (j * stepSec))

/-- The date sequence of a generated reading list is nondecreasing: the
clock only steps forward. -/
theorem genAux_dates_sorted (r : ℕ → Draw) :
    ∀ cur i k,
      List.Sorted (· ≤ ·) ((genAux r cur i k).map SensorRecord.date) := by
  intro cur i k
  induction k generalizing cur i with
  | zero => simp [genAux]
  | succ k ih =>
    simp only [genAux, List.map_cons, date_mkRecord]
    refine List.sorted_cons.mpr ⟨?_, ih (cur + stepSec) (i + 1)⟩
    intro b hb
    have h1 : (cur + stepSec) / daySec ≤ b := le_date_of_mem_genAux hb
    have h2 : cur / daySec ≤ (cur + stepSec) / daySec :=
      Nat.div_le_div_right (Nat.le_add_right cur stepSec)
    omega

/-- Every user generated in one application run carries the same
nondecreasing date sequence: `generate_data_thread` (line 699) calls
`generate_sensor_data_for_user()` with identical start date and count for
every user, and the dates ignore the random draws. -/
theorem generate_dates_common_sorted (startDay : ℕ) (n : ℤ)
    (r r' : ℕ → Draw) :
    (generate_sensor_data_for_user startDay n r).map SensorRecord.date =
      (generate_sensor_data_for_user startDay n r').map SensorRecord.date ∧
    List.Sorted (· ≤ ·)
      ((generate_sensor_data_for_user startDay n r).map SensorRecord.date) :=
  ⟨genAux_dates_indep r r' (startDay * daySec) 0 0 n.toNat,
   genAux_dates_sorted r (startDay * daySec) 0 n.toNat⟩

/-- C8 (amended): on nonempty flattened data the summary's reported range is
the date of the first reading and the date of the last reading in flattened
order.  When every user carries the same nondecreasing date sequence — as
every user in one run of this application does, each user's readings being
generated from the same start date and count with draw-independent,
nondecreasing dates — that pair is exactly the earliest-to-latest range:
both reported dates occur among the readings and bound every reading's
date.  (The flattened sequence itself is not nondecreasing: it restarts at
every user boundary.) -/
theorem C8_dateRange_first_last (data : List User)
    (hne : all_sensor_data data ≠ []) :
    ∃ s, generate_statistics data = .summary s ∧
      some s.dateRangeStart =
        ((all_sensor_data data).map SensorRecord.date).head? ∧
      some s.dateRangeEnd =
        ((all_sensor_data data).map SensorRecord.date).getLast? ∧
      s.dateRangeStart ∈ (all_sensor_data data).map SensorRecord.date ∧
      s.dateRangeEnd ∈ (all_sensor_data data).map SensorRecord.date ∧
      (∀ ds : List ℕ,
        (∀ u ∈ data, u.sensor_data.map SensorRecord.date = ds) →
        List.Sorted (· ≤ ·) ds →
        ∀ d ∈ (all_sensor_data data).map SensorRecord.date,
          s.dateRangeStart ≤ d ∧ d ≤ s.dateRangeEnd) := by
  have hdata : data ≠ [] := by
    intro h
    rw [h] at hne
    exact hne rfl
  have hmapne : (all_sensor_data data).map SensorRecord.date ≠ [] := by
    simpa using hne
  have hsum : generate_statistics data = .summary (mkSummary data) := by
    rw [generate_statistics]
    simp [hdata, hne]
  have hstart : (mkSummary data).dateRangeStart =
      (((all_sensor_data data).map SensorRecord.date).head?).getD 0 := rfl
  have hend : (mkSummary data).dateRangeEnd =
      (((all_sensor_data data).map SensorRecord.date).getLast?).getD 0 := rfl
  refine ⟨mkSummary data, hsum, ?_, ?_, ?_, ?_, ?_⟩
  · rw [hstart]
    exact some_headD hmapne
  · rw [hend]
    exact some_getLastD hmapne
  · rw [hstart]
    exact headD_mem hmapne
  · rw [hend]
    exact getLastD_mem hmapne
  · intro ds hcommon hsorted d hd
    have hdds : d ∈ ds := mem_common_ds hcommon d hd
    constructor
    · rw [hstart, head_common_ds hne hcommon]
      exact sorted_headD_le hsorted d hdds
    · rw [hend, getLast_common_ds data hne hcommon]
      exact sorted_le_getLastD hsorted d hdds

/-- A reading with a given date and fixed readings, used as concrete input. -/
def recD (d : ℕ) : SensorRecord := ⟨d, 0, 80, 60, 75, 55⟩

/-- A user whose readings' dates appear in increasing order. -/
def sUser : User :=
  { profileToUser wProfile with sensor_data := [recD 1, recD 2] }

/-- A user whose readings' dates appear out of order. -/
def cUser : User :=
  { profileToUser wProfile with sensor_data := [recD 2, recD 1] }

/-- The date range a report carries, when it is a full summary. -/
def reportDates (rep : StatsReport) : Option (ℕ × ℕ) :=
  match rep with
  | .summary s => some (s.dateRangeStart, s.dateRangeEnd)
  | _ => none

/-- C8 counterexample: on a reading set whose flattened dates are `[2, 1]`,
the code reports the range `2 to 1`, but the earliest date among the
readings is `1 < 2`; so for arbitrary reading sets the reported range is
not "from the earliest date to the latest date". -/
theorem C8_dateRange_counterexample :
    reportDates (generate_statistics [cUser]) = some (2, 1) ∧
    (1 : ℕ) ∈ (all_sensor_data [cUser]).map SensorRecord.date ∧
    ¬ (2 : ℕ) ≤ 1 := by
  refine ⟨rfl, by decide, by decide⟩

theorem C8_dateRange_first_last_witness :
    ∃ s, generate_statistics [sUser] = .summary s ∧
      some s.dateRangeStart =
        ((all_sensor_data [sUser]).map SensorRecord.date).head? ∧
      some s.dateRangeEnd =
        ((all_sensor_data [sUser]).map SensorRecord.date).getLast? ∧
      s.dateRangeStart ∈ (all_sensor_data [sUser]).map SensorRecord.date ∧
      s.dateRangeEnd ∈ (all_sensor_data [sUser]).map SensorRecord.date ∧
      (∀ ds : List ℕ,
        (∀ u ∈ [sUser], u.sensor_data.map SensorRecord.date = ds) →
        List.Sorted (· ≤ ·) ds →
        ∀ d ∈ (all_sensor_data [sUser]).map SensorRecord.date,
          s.dateRangeStart ≤ d ∧ d ≤ s.dateRangeEnd) :=
  C8_dateRange_first_last [sUser] (by decide)

/-- Number of sensor readings across all users. -/
def totalRecords (data : List User) : ℕ := (all_sensor_data data).length

/-- The `headers` list of `MainWindow.on_save_csv` (lines 842–844). -/
def csvHeaders : List String :=
  ["firstname", "lastname", "age", "gender", "username", "address", "email",
   "date", "time", "outside_temperature", "outside_humidity",
   "room_temperature", "room_humidity"]

/-- One CSV data row (lines 855–869): the user's identity fields followed by
one reading's fields, numbers via `str`, the day number / second-of-day
standing for the stored date and time strings. -/
def csvRow (u : User) (s : SensorRecord) : List String :=
  [u.firstname, u.lastname, toString u.age, u.gender, u.username, u.address,
   u.email, toString s.date, toString s.time,
   toString s.outside_temperature, toString s.outside_humidity,
   toString s.room_temperature, toString s.room_humidity]

/-- The `max_records = 10000` cap of line 851. -/
def maxRecords : ℕ := 10000

/-- The inner loop over one user's readings (lines 854–874): appends a row,
increments `record_count`, and breaks as soon as the count reaches the cap.
Returns the appended rows and the updated count. -/
def csvInner (u : User) : List SensorRecord → ℕ → List (List String) × ℕ
  | [], cnt => ([], cnt)
  | s :: ss, cnt =>
    if maxRecords ≤ cnt + 1 then ([csvRow u s], cnt + 1)
    else
      match csvInner u ss (cnt + 1) with
      | (rest, cnt') => (csvRow u s :: rest, cnt')

/-- The outer loop over users (lines 853–877): runs the inner loop, then
breaks if the count has reached the cap. -/
def csvOuter : List User → ℕ → List (List String) × ℕ
  | [], cnt => ([], cnt)
  | u :: us, cnt =>
    match csvInner u u.sensor_data cnt with
    | (rows, cnt') =>
      if maxRecords ≤ cnt' then (rows, cnt')
      else
        match csvOuter us cnt' with
        | (rest, cnt'') => (rows ++ rest, cnt'')

/-- The `csv_data` list written by `MainWindow.on_save_csv` (lines 839–882):
the header row followed by the capped data rows. -/
def on_save_csv_rows (data : List User) : List (List String) :=
  csvHeaders :: (csvOuter data 0).1

theorem nat_min_eq (a b : ℕ) : min a b = if a ≤ b then a else b := min_def a b

theorem csvInner_eq (u : User) :
    ∀ ss cnt, cnt < maxRecords →
      csvInner u ss cnt =
        ((ss.map (csvRow u)).take (maxRecords - cnt),
         min (cnt + ss.length) maxRecords) := by
  intro ss
  induction ss with
  | nil =>
    intro cnt h
    simp only [csvInner, List.map_nil, List.take_nil, List.length_nil]
    refine Prod.ext rfl ?_
    simp only [nat_min_eq]
    split_ifs <;> omega
  | cons s ss ih =>
    intro cnt h
    by_cases hc : maxRecords ≤ cnt + 1
    · rw [csvInner, if_pos hc]
      refine Prod.ext ?_ ?_
      · have h1 : maxRecords - cnt = 1 := by omega
        simp [h1]
      · simp only [List.length_cons, nat_min_eq]
        split_ifs <;> omega
    · rw [csvInner, if_neg hc]
      rw [ih (cnt + 1) (by omega)]
      refine Prod.ext ?_ ?_
      · have h1 : maxRecords - cnt = (maxRecords - (cnt + 1)) + 1 := by omega
        simp [h1]
      · simp only [List.length_cons, nat_min_eq]
        split_ifs <;> omega

theorem csvOuter_eq :
    ∀ data cnt, cnt < maxRecords →
      csvOuter data cnt =
        ((data.flatMap (fun u => u.sensor_data.map (csvRow u))).take
           (maxRecords - cnt),
         min (cnt + totalRecords data) maxRecords) := by
  intro data
  induction data with
  | nil =>
    intro cnt h
    simp only [csvOuter, List.flatMap_nil, List.take_nil]
    refine Prod.ext rfl ?_
    simp only [totalRecords, all_sensor_data, List.flatMap_nil,
      List.length_nil, nat_min_eq]
    split_ifs <;> omega
  | cons u us ih =>
    intro cnt h
    have hinner := csvInner_eq u u.sensor_data cnt h
    have htot : totalRecords (u :: us) =
        u.sensor_data.length + totalRecords us := by
      simp [totalRecords, all_sensor_data]
    rw [csvOuter, hinner]
    by_cases hge : maxRecords ≤ cnt + u.sensor_data.length
    · have hmin : min (cnt + u.sensor_data.length) maxRecords = maxRecords := by
        rw [nat_min_eq]
        split_ifs <;> omega
      rw [hmin]
      dsimp only
      rw [if_pos (le_refl maxRecords)]
      refine Prod.ext ?_ ?_
      · simp only [List.flatMap_cons]
        rw [List.take_append_of_le_length
          (by simp only [List.length_map]; omega)]
      · simp only [htot, nat_min_eq]
        split_ifs <;> omega
    · have hmin : min (cnt + u.sensor_data.length) maxRecords =
          cnt + u.sensor_data.length := by
        rw [nat_min_eq]
        split_ifs <;> omega
      rw [hmin]
      dsimp only
      rw [if_neg (by omega)]
      rw [ih (cnt + u.sensor_data.length) (by omega)]
      dsimp only
      refine Prod.ext ?_ ?_
      · simp only [List.flatMap_cons]
        rw [List.take_append_eq_append_take]
        have hlen : maxRecords - (cnt + u.sensor_data.length) =
            maxRecords - cnt - (List.map (csvRow u) u.sensor_data).length := by
          simp only [List.length_map]
          omega
        rw [hlen]
      · simp only [htot, nat_min_eq]
        split_ifs <;> omega

theorem length_flatMap_rows (data : List User) :
    (data.flatMap (fun u => u.sensor_data.map (csvRow u))).length =
      totalRecords data := by
  induction data with
  | nil => rfl
  | cons u t ih =>
    have htot : totalRecords (u :: t) =
        u.sensor_data.length + totalRecords t := by
      simp [totalRecords, all_sensor_data]
    simp only [List.flatMap_cons, List.length_append, List.length_map]
    rw [htot, ih]

/-- C5: the CSV payload is the 13-name header row followed by exactly
`min(total readings, 10000)` data rows: the first 10000 of the rows obtained
by pairing each user (in order) with each of its readings (in order). -/
theorem C5_csv_rows (data : List User) :
    on_save_csv_rows data =
      csvHeaders ::
        ((data.flatMap (fun u => u.sensor_data.map (csvRow u))).take
          maxRecords) ∧
    csvHeaders.length = 13 ∧
    (on_save_csv_rows data).length = 1 + min (totalRecords data) maxRecords := by
  have h0 : (0 : ℕ) < maxRecords := by norm_num [maxRecords]
  have houter := csvOuter_eq data 0 h0
  have hfst : (csvOuter data 0).1 =
      (data.flatMap (fun u => u.sensor_data.map (csvRow u))).take maxRecords := by
    rw [houter]
    simp
  constructor
  · rw [on_save_csv_rows, hfst]
  constructor
  · rfl
  · rw [on_save_csv_rows, List.length_cons, hfst, List.length_take,
      length_flatMap_rows]
    omega

/-- Parsed JSON values, as `json.dump` / `json.loads` see them: strings,
integers, floats (here exact rationals, as stated at the top), arrays and
objects.  Python's `json` keeps `int` and `float` apart, hence the two
numeric constructors. -/
inductive Json where
  | jstr : String → Json
  | jint : ℤ → Json
  | jnum : ℚ → Json
  | jarr : List Json → Json
  | jobj : List (String × Json) → Json

/-- The JSON object one sensor dict serializes to.  The record's date and
time are stored as formatted strings; the fixed-format `strftime` output is
injective on the instants involved, so the string is represented by the day
number / second-of-day it denotes. -/
def encodeRecord (s : SensorRecord) : Json :=
  .jobj [("date", .jint s.date), ("time", .jint s.time),
    ("outside_temperature", .jnum s.outside_temperature),
    ("outside_humidity", .jnum s.outside_humidity),
    ("room_temperature", .jnum s.room_temperature),
    ("room_humidity", .jnum s.room_humidity)]

/-- The JSON object one user dict (a shallow `user.copy()`) serializes to. -/
def encodeUser (u : User) : Json :=
  .jobj [("firstname", .jstr u.firstname), ("lastname", .jstr u.lastname),
    ("age", .jint u.age), ("gender", .jstr u.gender),
    ("username", .jstr u.username), ("address", .jstr u.address),
    ("email", .jstr u.email),
    ("sensor_data", .jarr (u.sensor_data.map encodeRecord))]

/-- The JSON value `MainWindow.on_save_json` (lines 809–817) writes: the
array of shallow-copied user objects, every reading included (no cap). -/
def on_save_json_payload (data : List User) : Json :=
  .jarr ((data.map (fun u => u)).map encodeUser)

def decodeStr : Json → Option String
  | .jstr s => some s
  | _ => none

def decodeNat : Json → Option ℕ
  | .jint n => some n.toNat
  | _ => none

def decodeQ : Json → Option ℚ
  | .jnum q => some q
  | _ => none

/-- Reparse a list of JSON values elementwise, failing if any element fails. -/
def decodeList (f : Json → Option α) : List Json → Option (List α)
  | [] => some []
  | j :: js => do
    let a ← f j
    let t ← decodeList f js
    some (a :: t)

/-- Reparse one reading object. -/
def decodeRecord (j : Json) : Option SensorRecord :=
  match j with
  | .jobj fs => do
    let d ← (fs.lookup "date").bind decodeNat
    let t ← (fs.lookup "time").bind decodeNat
    let ot ← (fs.lookup "outside_temperature").bind decodeQ
    let oh ← (fs.lookup "outside_humidity").bind decodeQ
    let rt ← (fs.lookup "room_temperature").bind decodeQ
    let rh ← (fs.lookup "room_humidity").bind decodeQ
    some ⟨d, t, ot, oh, rt, rh⟩
  | _ => none

/-- Reparse one user object. -/
def decodeUser (j : Json) : Option User :=
  match j with
  | .jobj fs => do
    let fn ← (fs.lookup "firstname").bind decodeStr
    let ln ← (fs.lookup "lastname").bind decodeStr
    let a ← (fs.lookup "age").bind decodeNat
    let g ← (fs.lookup "gender").bind decodeStr
    let un ← (fs.lookup "username").bind decodeStr
    let ad ← (fs.lookup "address").bind decodeStr
    let em ← (fs.lookup "email").bind decodeStr
    let sd ← match fs.lookup "sensor_data" with
      | some (.jarr xs) => decodeList decodeRecord xs
      | _ => none
    some ⟨fn, ln, a, g, un, ad, em, sd⟩
  | _ => none

/-- Reparse the whole exported value. -/
def decodeUsers (j : Json) : Option (List User) :=
  match j with
  | .jarr xs => decodeList decodeUser xs
  | _ => none

theorem decodeRecord_encodeRecord (s : SensorRecord) :
    decodeRecord (encodeRecord s) = some s := by
  obtain ⟨d, t, ot, oh, rt, rh⟩ := s
  rfl

theorem decodeList_encodeRecord (l : List SensorRecord) :
    decodeList decodeRecord (l.map encodeRecord) = some l := by
  induction l with
  | nil => rfl
  | cons s t ih =>
    simp only [List.map_cons, decodeList, decodeRecord_encodeRecord, ih,
      Option.bind_eq_bind, Option.some_bind]

theorem decodeUser_encodeUser (u : User) :
    decodeUser (encodeUser u) = some u := by
  obtain ⟨fn, ln, a, g, un, ad, em, sd⟩ := u
  show (decodeList decodeRecord (sd.map encodeRecord)).bind
      (fun sd' => some (User.mk fn ln a g un ad em sd')) =
    some (User.mk fn ln a g un ad em sd)
  rw [decodeList_encodeRecord]
  rfl

theorem decodeList_encodeUser (l : List User) :
    decodeList decodeUser (l.map encodeUser) = some l := by
  induction l with
  | nil => rfl
  | cons u t ih =>
    simp only [List.map_cons, decodeList, decodeUser_encodeUser, ih,
      Option.bind_eq_bind, Option.some_bind]

/-- Number of reading objects a user object carries in the JSON output. -/
def jsonUserReadingCount : Json → ℕ
  | .jobj fs =>
    match fs.lookup "sensor_data" with
    | some (.jarr xs) => xs.length
    | _ => 0
  | _ => 0

/-- Number of reading objects in the whole JSON output. -/
def jsonReadingCount : Json → ℕ
  | .jarr us => (us.map jsonUserReadingCount).sum
  | _ => 0

theorem jsonUserReadingCount_encodeUser (u : User) :
    jsonUserReadingCount (encodeUser u) = u.sensor_data.length := by
  obtain ⟨fn, ln, a, g, un, ad, em, sd⟩ := u
  show (sd.map encodeRecord).length = sd.length
  exact List.length_map sd encodeRecord

/-- C6: serializing the in-memory data to JSON and reparsing yields exactly
the in-memory data back — every identity field and every reading field of
every user is reproduced — and the JSON output contains one reading object
per in-memory reading (no cap is applied). -/
theorem C6_json_round_trip (data : List User) :
    decodeUsers (on_save_json_payload data) = some data ∧
    jsonReadingCount (on_save_json_payload data) = totalRecords data := by
  constructor
  · show decodeList decodeUser ((data.map (fun u => u)).map encodeUser) = some data
    rw [List.map_id']
    exact decodeList_encodeUser data
  · show (((data.map (fun u => u)).map encodeUser).map jsonUserReadingCount).sum =
      totalRecords data
    rw [List.map_id']
    induction data with
    | nil => rfl
    | cons u t ih =>
      simp only [List.map_cons, List.sum_cons, jsonUserReadingCount_encodeUser, ih]
      simp [totalRecords, all_sensor_data]

/-- The generation-related state of `MainWindow`: the boolean guard
`generation_in_progress` (line 571) and the number of generation runs
currently executing (worker threads started at line 682 whose completion or
error callback has not yet run). -/
structure UIState where
  generation_in_progress : Bool
  runs_active : ℕ
deriving DecidableEq

/-- The events touching that state: a `Generate IoT Data` menu request
(`on_generate`, carrying whether the user confirmed the dialog), and the
two callbacks the worker posts via `wx.CallAfter`
(`data_generation_complete`, `data_generation_error`). -/
inductive UIEvent where
  | generate : Bool → UIEvent
  | complete : UIEvent
  | error : UIEvent
deriving DecidableEq

/-- `MainWindow.__init__` (lines 570–571): no data, no run in progress. -/
def initState : UIState := ⟨false, 0⟩

/-- The effect of each event, as all three handlers run on the single UI
thread: `on_generate` (lines 655–686) returns at once when the guard is set;
otherwise, on a confirmed dialog, it sets the guard and starts one worker.
`data_generation_complete` (lines 720–737) and `data_generation_error`
(lines 739–749) clear the guard, the posting worker having finished. -/
def stepUI (s : UIState) : UIEvent → UIState
  | .generate confirmed =>
    if s.generation_in_progress then s
    else if confirmed then ⟨true, s.runs_active + 1⟩
    else s
  | .complete => ⟨false, s.runs_active - 1⟩
  | .error => ⟨false, s.runs_active - 1⟩

/-- States reachable from start-up.  Each worker posts exactly one
`complete` or `error` callback, at its end — so those two events only occur
while a run is active. -/
inductive Reachable : UIState → Prop where
  | init : Reachable initState
  | generate (s : UIState) (c : Bool) :
      Reachable s → Reachable (stepUI s (.generate c))
  | complete (s : UIState) :
      Reachable s → 1 ≤ s.runs_active → Reachable (stepUI s .complete)
  | error (s : UIState) :
      Reachable s → 1 ≤ s.runs_active → Reachable (stepUI s .error)

theorem reachable_invariant {s : UIState} (h : Reachable s) :
    s.runs_active ≤ 1 ∧
    (s.generation_in_progress = true ↔ s.runs_active = 1) := by
  induction h with
  | init => simp [initState]
  | generate s c _ ih =>
    obtain ⟨h1, h2⟩ := ih
    by_cases hp : s.generation_in_progress
    · have heq : stepUI s (.generate c) = s := by simp [stepUI, hp]
      rw [heq]
      exact ⟨h1, h2⟩
    · cases c with
      | true =>
        have h0 : s.runs_active = 0 := by
          rcases Nat.lt_or_ge s.runs_active 1 with h | h
          · omega
          · exact absurd (h2.mpr (by omega)) hp
        simp [stepUI, hp, h0]
      | false =>
        have heq : stepUI s (.generate false) = s := by simp [stepUI, hp]
        rw [heq]
        exact ⟨h1, h2⟩
  | complete s _ hr ih =>
    obtain ⟨h1, _⟩ := ih
    have : s.runs_active = 1 := by omega
    simp [stepUI, this]
  | error s _ hr ih =>
    obtain ⟨h1, _⟩ := ih
    have : s.runs_active = 1 := by omega
    simp [stepUI, this]

/-- C9: in every reachable state at most one generation run is active, and
the guard is set exactly while one is; a generate request arriving while
the guard is set leaves the state unchanged (rejected, no second run); a
confirmed request from an idle state sets the guard and starts exactly one
run; the completion and the error callbacks clear the guard. -/
theorem C9_single_run (s : UIState) (h : Reachable s) :
    (s.runs_active ≤ 1 ∧
      (s.generation_in_progress = true ↔ s.runs_active = 1)) ∧
    (s.generation_in_progress = true → ∀ c, stepUI s (.generate c) = s) ∧
    (s.generation_in_progress = false →
      stepUI s (.generate true) = ⟨true, s.runs_active + 1⟩) ∧
    (stepUI s .complete).generation_in_progress = false ∧
    (stepUI s .error).generation_in_progress = false := by
  refine ⟨reachable_invariant h, ?_, ?_, rfl, rfl⟩
  · intro hp c
    simp [stepUI, hp]
  · intro hp
    simp [stepUI, hp]

theorem C9_single_run_witness :
    ((initState.runs_active ≤ 1 ∧
      (initState.generation_in_progress = true ↔ initState.runs_active = 1)) ∧
    (initState.generation_in_progress = true →
      ∀ c, stepUI initState (.generate c) = initState) ∧
    (initState.generation_in_progress = false →
      stepUI initState (.generate true) = ⟨true, initState.runs_active + 1⟩) ∧
    (stepUI initState .complete).generation_in_progress = false ∧
    (stepUI initState .error).generation_in_progress = false) :=
  C9_single_run initState Reachable.init

end IoTData
